import Mathlib

/-!
Verification of the real-time audio transport pipeline of the Realtime Voice
Agent frontend.

The development shallowly embeds the pipeline's code:
* the PCM16 codec (`floatTo16BitPCM` in useAudioRecorder.js and the decode
  loop of `playAudio` in useAudioPlayer.js), with audio sample values
  modelled as rationals and 16-bit PCM values as integers;
* the linear-interpolation resampler (`resampleAndConvert`);
* the chunked base64 text transport (`arrayBufferToBase64` plus the platform
  functions btoa/atob it relies on), with bytes modelled as `Fin 256`;
* the playback queue of useAudioPlayer.js as event-step state machines, where
  the synchronous segments of the JS event loop between `await` points are
  single atomic steps: `playerStep` for the synchronous effects of
  `playAudio`/`stopAudio`, and `playerFullStep` additionally tracking
  suspended `processAudioQueue` loop instances and stale device-completion
  signals;
* the session-level handlers of App.jsx (`handleAudioData`,
  `handleStopRecording`, `handleCancelResponse`) and the recording
  start/stop lifecycle of useAudioRecorder.js.
-/

namespace VoiceAgent

/-! ### PCM codec -/

/-- Truncation toward zero: the result of assigning a JS number into an
`Int16Array` slot (ToIntegerOrInfinity truncates toward zero), for values that
fit in the int16 range. -/
def truncQ (q : ℚ) : ℤ := if 0 ≤ q then ⌊q⌋ else ⌈q⌉

/-- `Math.max(-1, Math.min(1, x))`, the clamp used by both encoders. -/
def clamp1 (x : ℚ) : ℚ := max (-1) (min 1 x)

/-- One sample of `floatTo16BitPCM` (useAudioRecorder.js lines 118-121):
`const s = Math.max(-1, Math.min(1, x)); int16[i] = s < 0 ? s * 0x8000 : s * 0x7FFF`. -/
def encodeSample (x : ℚ) : ℤ :=
  truncQ (if clamp1 x < 0 then clamp1 x * 32768 else clamp1 x * 32767)

/-- One sample of the playback decode loop (useAudioPlayer.js line 35):
`float32Array[i] = int16Array[i] / (int16Array[i] < 0 ? 0x8000 : 0x7FFF)`. -/
def decodeSample (n : ℤ) : ℚ := (n : ℚ) / (if n < 0 then 32768 else 32767)

/-- `floatTo16BitPCM` applied to a whole frame. -/
def floatTo16BitPCM (xs : List ℚ) : List ℤ := xs.map encodeSample

/-- The playback-side Int16-to-Float32 conversion applied to a whole buffer. -/
def decodePCM16 (ns : List ℤ) : List ℚ := ns.map decodeSample

/-! ### Resampler (useAudioRecorder.js `resampleAndConvert`, lines 126-144) -/

/-- `const newLength = Math.round(float32Array.length / ratio)` with
`ratio = fromRate / toRate`. -/
def resampleOutLen (len fromRate toRate : ℕ) : ℕ :=
  (round ((len : ℚ) / ((fromRate : ℚ) / (toRate : ℚ)))).toNat

/-- `const srcFloor = Math.floor(i * ratio)`. -/
def resampleSrcFloor (i fromRate toRate : ℕ) : ℤ :=
  ⌊(i : ℚ) * ((fromRate : ℚ) / (toRate : ℚ))⌋

/-- `const srcCeil = Math.min(srcFloor + 1, float32Array.length - 1)`. -/
def resampleSrcCeil (i len fromRate toRate : ℕ) : ℤ :=
  min (resampleSrcFloor i fromRate toRate + 1) ((len : ℤ) - 1)

/-- `resampleAndConvert`: linear interpolation between the two neighbouring
source samples, then clamping and PCM16 encoding exactly as in
`floatTo16BitPCM`. Out-of-range reads are modelled by `getD` with default 0;
`resample_reads_in_bounds` shows the default is never consulted. -/
def resampleAndConvert (samples : List ℚ) (fromRate toRate : ℕ) : List ℤ :=
  (List.range (resampleOutLen samples.length fromRate toRate)).map (fun (i : ℕ) =>
    let srcIndex : ℚ := (i : ℚ) * ((fromRate : ℚ) / (toRate : ℚ))
    let sFloor : ℤ := resampleSrcFloor i fromRate toRate
    let sCeil : ℤ := resampleSrcCeil i samples.length fromRate toRate
    let frac : ℚ := srcIndex - (sFloor : ℚ)
    encodeSample (samples.getD sFloor.toNat 0 * (1 - frac) +
      samples.getD sCeil.toNat 0 * frac))

/-- C2: for every input sample sequence and rates Rin ≠ Rout, the resampler's
output length is `round(len / (Rin/Rout)) = round(len * Rout / Rin)`. -/
theorem resample_length_law (samples : List ℚ) (rin rout : ℕ) (_hne : rin ≠ rout) :
    (resampleAndConvert samples rin rout).length
      = (round ((samples.length : ℚ) * (rout : ℚ) / (rin : ℚ))).toNat := by
  rw [resampleAndConvert, List.length_map, List.length_range, resampleOutLen,
    div_div_eq_mul_div]

/-- Witness for C2, the spec's scenario: a 4096-sample frame at 48000 Hz
resampled to 24000 Hz yields exactly 2048 output samples. -/
theorem resample_length_law_witness :
    (resampleAndConvert (List.replicate 4096 (0 : ℚ)) 48000 24000).length = 2048 := by
  rw [resample_length_law (List.replicate 4096 (0 : ℚ)) 48000 24000 (by norm_num)]
  norm_num
  decide

/-- Every source index taken by output index `i` stays strictly below `len`
when `i` is below the computed output length. -/
theorem resampleSrcFloor_lt (len rin rout i : ℕ) (hrin : 0 < rin) (hrout : 0 < rout)
    (hi : i < resampleOutLen len rin rout) :
    resampleSrcFloor i rin rout < (len : ℤ) := by
  have hr : (0 : ℚ) < (rin : ℚ) / (rout : ℚ) :=
    div_pos (by exact_mod_cast hrin) (by exact_mod_cast hrout)
  set r : ℚ := (rin : ℚ) / (rout : ℚ) with hrdef
  have hiz : (i : ℤ) < round ((len : ℚ) / r) := by
    rw [resampleOutLen] at hi
    exact Int.lt_toNat.mp hi
  rw [resampleSrcFloor, ← hrdef, Int.floor_lt]
  have h1 : ((i : ℚ)) + 1 ≤ ((round ((len : ℚ) / r) : ℤ) : ℚ) := by
    exact_mod_cast hiz
  have h2 : ((round ((len : ℚ) / r) : ℤ) : ℚ) ≤ (len : ℚ) / r + 1 / 2 := by
    rw [round_eq]
    exact_mod_cast Int.floor_le ((len : ℚ) / r + 1 / 2)
  have h3 : (i : ℚ) ≤ (len : ℚ) / r - 1 / 2 := by linarith
  have h4 : (i : ℚ) * r ≤ ((len : ℚ) / r - 1 / 2) * r :=
    mul_le_mul_of_nonneg_right h3 hr.le
  have h5 : ((len : ℚ) / r - 1 / 2) * r = (len : ℚ) - r / 2 := by
    rw [sub_mul, div_mul_cancel₀ _ hr.ne']
    ring
  push_cast
  nlinarith

/-- C3: for nonzero input length and positive rates, every source index the
resampler reads (`srcFloor` and the clamped `srcCeil`) lies within
`[0, len-1]` for every output index below the output length; and a zero-length
input yields a zero-length output. -/
theorem resample_reads_in_bounds :
    (∀ len rin rout i : ℕ, 0 < len → 0 < rin → 0 < rout → rin ≠ rout →
        i < resampleOutLen len rin rout →
        0 ≤ resampleSrcFloor i rin rout ∧
        (resampleSrcFloor i rin rout).toNat < len ∧
        0 ≤ resampleSrcCeil i len rin rout ∧
        (resampleSrcCeil i len rin rout).toNat < len) ∧
    (∀ rin rout : ℕ, resampleAndConvert [] rin rout = []) := by
  constructor
  · intro len rin rout i hlen hrin hrout _hne hi
    have hr : (0 : ℚ) < (rin : ℚ) / (rout : ℚ) :=
      div_pos (by exact_mod_cast hrin) (by exact_mod_cast hrout)
    have hfl0 : 0 ≤ resampleSrcFloor i rin rout := by
      rw [resampleSrcFloor]
      exact Int.floor_nonneg.mpr (by positivity)
    have hflt : resampleSrcFloor i rin rout < (len : ℤ) :=
      resampleSrcFloor_lt len rin rout i hrin hrout hi
    have hceil : resampleSrcCeil i len rin rout
        = min (resampleSrcFloor i rin rout + 1) ((len : ℤ) - 1) := rfl
    refine ⟨hfl0, by omega, ?_, ?_⟩ <;> rw [hceil] <;> omega
  · intro rin rout
    rw [resampleAndConvert]
    have h0 : resampleOutLen 0 rin rout = 0 := by
      rw [resampleOutLen]
      norm_num
    simp [h0]

/-- Witness for C3 at a concrete input: 4 samples resampled from rate 2 to
rate 1 (output length 2), checking output index 1. -/
theorem resample_reads_in_bounds_witness :
    (0 ≤ resampleSrcFloor 1 2 1 ∧ (resampleSrcFloor 1 2 1).toNat < 4 ∧
      0 ≤ resampleSrcCeil 1 4 2 1 ∧ (resampleSrcCeil 1 4 2 1).toNat < 4) ∧
    resampleAndConvert [] 2 1 = [] :=
  ⟨resample_reads_in_bounds.1 4 2 1 1 (by decide) (by decide) (by decide)
      (by decide) (by rw [resampleOutLen, round_eq]; norm_num),
    resample_reads_in_bounds.2 2 1⟩

/-! ### PCM round trip -/

/-- On a valid 16-bit value the decode/encode round trip of the code is in
fact exact: decoding divides a negative value by 32768 (a non-negative one by
32767) and encoding scales it straight back before truncating. -/
theorem encode_decode_exact (n : ℤ) (h1 : -32768 ≤ n) (h2 : n ≤ 32767) :
    encodeSample (decodeSample n) = n := by
  rw [decodeSample, encodeSample, clamp1]
  rcases lt_or_ge n 0 with hn | hn
  · rw [if_pos hn]
    have hneg : (n : ℚ) / 32768 < 0 :=
      div_neg_of_neg_of_pos (by exact_mod_cast hn) (by norm_num)
    have hlow : (-1 : ℚ) ≤ (n : ℚ) / 32768 := by
      rw [le_div_iff₀ (by norm_num : (0 : ℚ) < 32768)]
      exact_mod_cast (by linarith : (-32768 : ℤ) ≤ n)
    rw [min_eq_right (by linarith), max_eq_right hlow, if_pos hneg,
      div_mul_cancel₀ _ (by norm_num : (32768 : ℚ) ≠ 0), truncQ,
      if_neg (by exact_mod_cast not_le.mpr hn)]
    exact Int.ceil_intCast n
  · rw [if_neg (not_lt.mpr hn)]
    have hpos : (0 : ℚ) ≤ (n : ℚ) / 32767 :=
      div_nonneg (by exact_mod_cast hn) (by norm_num)
    have hhigh : (n : ℚ) / 32767 ≤ 1 := by
      rw [div_le_iff₀ (by norm_num : (0 : ℚ) < 32767)]
      exact_mod_cast (by linarith : n ≤ (32767 : ℤ))
    rw [min_eq_right hhigh, max_eq_right (by linarith), if_neg (not_lt.mpr hpos),
      div_mul_cancel₀ _ (by norm_num : (32767 : ℚ) ≠ 0), truncQ,
      if_pos (by exact_mod_cast hn)]
    exact Int.floor_intCast n

/-- C4: for every PCM16 buffer, `encode(decode(B))` reproduces `B` within ±1
least-significant bit per sample (the code in fact round-trips exactly). -/
theorem pcm_roundtrip_within_one (B : List ℤ)
    (hB : ∀ n ∈ B, -32768 ≤ n ∧ n ≤ 32767) :
    (floatTo16BitPCM (decodePCM16 B)).length = B.length ∧
    ∀ k, k < B.length →
      |(floatTo16BitPCM (decodePCM16 B)).getD k 0 - B.getD k 0| ≤ 1 := by
  have hmap : floatTo16BitPCM (decodePCM16 B)
      = B.map (fun n => encodeSample (decodeSample n)) := by
    rw [floatTo16BitPCM, decodePCM16, List.map_map]
    rfl
  have hid : ∀ (L : List ℤ), (∀ n ∈ L, -32768 ≤ n ∧ n ≤ 32767) →
      L.map (fun n => encodeSample (decodeSample n)) = L := by
    intro L hL
    induction L with
    | nil => rfl
    | cons a t ih =>
      rw [List.map_cons,
        encode_decode_exact a (hL a (by simp)).1 (hL a (by simp)).2,
        ih (fun n hn => hL n (by simp [hn]))]
  rw [hmap, hid B hB]
  exact ⟨rfl, fun k _ => by simp⟩

/-- Witness for C4 on a concrete buffer covering both extremes and both signs. -/
theorem pcm_roundtrip_within_one_witness :
    (floatTo16BitPCM (decodePCM16 [-32768, -1, 0, 1, 32767])).length
      = ([-32768, -1, 0, 1, 32767] : List ℤ).length ∧
    ∀ k, k < ([-32768, -1, 0, 1, 32767] : List ℤ).length →
      |(floatTo16BitPCM (decodePCM16 [-32768, -1, 0, 1, 32767])).getD k 0
        - ([-32768, -1, 0, 1, 32767] : List ℤ).getD k 0| ≤ 1 :=
  pcm_roundtrip_within_one [-32768, -1, 0, 1, 32767] (by decide)

/-! ### Playback queue (useAudioPlayer.js)

The queue is driven by three kinds of atomic events, each one synchronous
segment of JS between `await` points: `enqueue seg` is a `playAudio` call
(decode, push, and — when no drain loop is running — the synchronous head of
`processAudioQueue` up to its first `await`); `ended` is the output device's
`onended` signal resuming the drain loop (finish the current segment, start
the next one or go idle); `flush` is `stopAudio`. Segments are tracked by
identifier; `active` is the list of sources started on the output device and
not yet ended or stopped. -/

inductive PlayerEv where
  | enqueue (seg : ℕ)
  | ended
  | flush
deriving DecidableEq, Repr

structure PlayerState where
  /-- `audioQueueRef.current`: decoded segments not yet started. -/
  queue : List ℕ
  /-- `isProcessingRef.current`. -/
  isProcessing : Bool
  /-- sources started on the output device and not yet ended/stopped;
  `currentSourceRef.current` is its last element. -/
  active : List ℕ
  /-- log: segments in `playAudio` arrival order. -/
  enqueued : List ℕ
  /-- log: segments in the order their playback was started. -/
  started : List ℕ
  /-- log: segments whose playback the device completed. -/
  completed : List ℕ
deriving DecidableEq, Repr

def playerStep (s : PlayerState) : PlayerEv → PlayerState
  | PlayerEv.enqueue seg =>
    if s.isProcessing then
      { s with queue := s.queue ++ [seg], enqueued := s.enqueued ++ [seg] }
    else
      match s.queue ++ [seg] with
      | [] => { s with queue := [], enqueued := s.enqueued ++ [seg],
                       isProcessing := true }
      | h0 :: t =>
          { s with queue := t, enqueued := s.enqueued ++ [seg],
                   isProcessing := true, active := s.active ++ [h0],
                   started := s.started ++ [h0] }
  | PlayerEv.ended =>
    match s.active with
    | [] => s
    | a :: _ =>
      match s.queue with
      | [] =>
          { s with active := [], completed := s.completed ++ [a],
                   isProcessing := false }
      | h0 :: t =>
          { s with active := [h0], completed := s.completed ++ [a],
                   queue := t, started := s.started ++ [h0] }
  | PlayerEv.flush =>
    { s with queue := [], isProcessing := false, active := [] }

/-! #### Full event semantics with suspended drain loops

`playerStep` above captures the synchronous effects of `playAudio` and
`stopAudio` used by the flush/cancel theorems below, delivering each
device-completion signal to the single live drain loop. The real
`processAudioQueue`, however, is an `async` loop suspended at `await` on one
specific source's `onended` (line 70), and a source stopped by `stopAudio`
still fires `onended`: the old loop then resumes even though `stopAudio`
already reset `isProcessingRef`, and later `playAudio` calls may have spawned
a new loop in the meantime. `playerFullStep` models this faithfully:
`awaiting` holds the sources on which some suspended loop instance is parked,
`rendering` the sources currently audible on the output device, and `stale`
the stopped sources whose `onended` has not yet been delivered. -/

structure PlayerFullState where
  /-- `audioQueueRef.current`: decoded segments not yet started. -/
  queue : List ℕ
  /-- `isProcessingRef.current`. -/
  isProcessing : Bool
  /-- `currentSourceRef.current`. -/
  currentSource : Option ℕ
  /-- sources currently rendering on the output device. -/
  rendering : List ℕ
  /-- sources whose `onended` some suspended `processAudioQueue` loop awaits. -/
  awaiting : List ℕ
  /-- stopped sources whose `onended` has not yet been delivered. -/
  stale : List ℕ
  /-- log: segments in `playAudio` arrival order. -/
  enqueued : List ℕ
  /-- log: segments in the order their playback was started. -/
  started : List ℕ
deriving DecidableEq, Repr

def initPlayerFull : PlayerFullState := ⟨[], false, none, [], [], [], [], []⟩

/-- One iteration of the `processAudioQueue` while-loop, as run when a loop
instance starts or resumes: shift the oldest segment and start it on the
device (the loop then awaits its `onended`), or — queue empty — clear
`isProcessingRef` and the source ref and exit. -/
def resumeDrain (s : PlayerFullState) : PlayerFullState :=
  match s.queue with
  | [] => { s with isProcessing := false, currentSource := none }
  | h :: t =>
      { s with queue := t, rendering := s.rendering ++ [h],
               awaiting := s.awaiting ++ [h], currentSource := some h,
               started := s.started ++ [h] }

inductive PlayerFullEv where
  /-- a `playAudio` call: push, and when `isProcessingRef` is unset spawn a
  new `processAudioQueue` loop, whose synchronous head runs one iteration. -/
  | enqueue (seg : ℕ)
  /-- the device finishes playing `src` naturally; its `onended` resumes the
  loop awaiting it. -/
  | naturalEnded (src : ℕ)
  /-- delivery of the `onended` of a source stopped earlier by `stopAudio`;
  it resumes the old loop still awaiting that source. -/
  | staleEnded (src : ℕ)
  /-- `stopAudio`. -/
  | flush
deriving DecidableEq, Repr

def playerFullStep (s : PlayerFullState) : PlayerFullEv → PlayerFullState
  | PlayerFullEv.enqueue seg =>
    let s1 := { s with queue := s.queue ++ [seg], enqueued := s.enqueued ++ [seg] }
    if s1.isProcessing then s1
    else resumeDrain { s1 with isProcessing := true }
  | PlayerFullEv.naturalEnded src =>
    if src ∈ s.rendering then
      let s1 := { s with rendering := s.rendering.erase src }
      if src ∈ s1.awaiting then
        resumeDrain { s1 with awaiting := s1.awaiting.erase src }
      else s1
    else s
  | PlayerFullEv.staleEnded src =>
    if src ∈ s.stale then
      let s1 := { s with stale := s.stale.erase src }
      if src ∈ s1.awaiting then
        resumeDrain { s1 with awaiting := s1.awaiting.erase src }
      else s1
    else s
  | PlayerFullEv.flush =>
    let s1 :=
      (match s.currentSource with
        | none => s
        | some c =>
          if c ∈ s.rendering then
            { s with rendering := s.rendering.erase c, stale := s.stale ++ [c] }
          else s)
    { s1 with currentSource := none, queue := [], isProcessing := false }

def runPlayerFull (evs : List PlayerFullEv) : PlayerFullState :=
  evs.foldl playerFullStep initPlayerFull

/-- C1: the claimed single-stream invariant is the code's clear intent — the
`isProcessingRef` guard exists exactly to prevent a second concurrent drain
loop — but the code reachably violates it. After `playAudio(1); stopAudio()`
the first loop stays suspended on the stopped source's `onended`;
`playAudio(2)` spawns a second loop (the flush cleared `isProcessingRef`) and
`playAudio(3)` queues a further segment; when the stale `onended` of source 1
is then delivered, the old loop resumes, shifts segment 3 and starts it while
segment 2 is still rendering — two concurrent output streams. Before the
stale signal arrives only segment 2 is rendering. -/
theorem playback_double_stream_bug :
    (runPlayerFull [PlayerFullEv.enqueue 1, PlayerFullEv.flush,
        PlayerFullEv.enqueue 2, PlayerFullEv.enqueue 3,
        PlayerFullEv.staleEnded 1]).rendering = [2, 3] ∧
    ¬ (runPlayerFull [PlayerFullEv.enqueue 1, PlayerFullEv.flush,
        PlayerFullEv.enqueue 2, PlayerFullEv.enqueue 3,
        PlayerFullEv.staleEnded 1]).rendering.length ≤ 1 ∧
    (runPlayerFull [PlayerFullEv.enqueue 1, PlayerFullEv.flush,
        PlayerFullEv.enqueue 2, PlayerFullEv.enqueue 3]).rendering = [2] := by
  decide

/-! ### Flush and cancel (useAudioPlayer.js `stopAudio`, App.jsx
`handleCancelResponse`) -/

/-- C6: `flush` (`stopAudio`) stops the rendering segment, discards the whole
backlog and moves the queue to Idle unconditionally — from any state, even
Idle or with the device already stopped (the catch around `source.stop()`
makes that a no-op) — and a subsequent enqueue starts a fresh render from
Idle. -/
theorem flush_resets_to_idle (s : PlayerState) (seg : ℕ) :
    (playerStep s PlayerEv.flush).active = [] ∧
    (playerStep s PlayerEv.flush).queue = [] ∧
    (playerStep s PlayerEv.flush).isProcessing = false ∧
    (playerStep (playerStep s PlayerEv.flush) (PlayerEv.enqueue seg)).active = [seg] ∧
    (playerStep (playerStep s PlayerEv.flush) (PlayerEv.enqueue seg)).isProcessing = true ∧
    (playerStep (playerStep s PlayerEv.flush) (PlayerEv.enqueue seg)).queue = [] ∧
    (playerStep (playerStep s PlayerEv.flush) (PlayerEv.enqueue seg)).started
      = s.started ++ [seg] := by
  refine ⟨rfl, rfl, rfl, ?_, ?_, ?_, ?_⟩ <;> simp [playerStep]

/-- The client → server message vocabulary of App.jsx (§6 wire protocol).
Constructor names avoid the raw wire strings; the wire `type` fields are
`connect_agent`, `switch_agent`, `audio`, `commit_audio`, `cancel`, `text`. -/
inductive ClientMsg where
  | connectAgent (agentId : String)
  | switchAgent (agentId : String)
  | audioMsg (payload : String)
  | commitMsg
  | cancelMsg
  | textMsg (t : String)
deriving DecidableEq, Repr

/-- Result of `handleCancelResponse` (App.jsx lines 268-276): the messages it
sends, the new speaking flag, and the playback queue after `stopAudio()`. -/
structure CancelResult where
  sent : List ClientMsg
  speaking : Bool
  player : PlayerState

/-- `handleCancelResponse`: send `cancel` only when `isSpeaking`; then
unconditionally `stopAudio()` and clear the speaking flag, without waiting for
any server acknowledgment. -/
def handleCancelResponse (isSpeaking : Bool) (player : PlayerState) : CancelResult :=
  { sent := if isSpeaking then [ClientMsg.cancelMsg] else []
    speaking := false
    player := playerStep player PlayerEv.flush }

/-- C7: a cancel message is sent iff a response is streaming (speaking flag
true); afterwards the playback queue is flushed (no queued segment survives)
and the speaking flag is cleared locally, unconditionally. -/
theorem cancel_only_when_speaking (isSpeaking : Bool) (p : PlayerState) :
    ((handleCancelResponse isSpeaking p).sent
        = if isSpeaking then [ClientMsg.cancelMsg] else []) ∧
    ((handleCancelResponse isSpeaking p).sent ≠ [] ↔ isSpeaking = true) ∧
    (handleCancelResponse isSpeaking p).speaking = false ∧
    (handleCancelResponse isSpeaking p).player.queue = [] ∧
    (handleCancelResponse isSpeaking p).player.active = [] ∧
    (handleCancelResponse isSpeaking p).player.isProcessing = false := by
  cases isSpeaking <;>
    simp [handleCancelResponse, playerStep]

/-! ### Commit gating (App.jsx `handleStartRecording` / `handleStopRecording`,
useAudioRecorder.js `hasAudioDataRef`)

Events: `startRec` is a successful `startRecording()` (which sets
`hasAudioDataRef.current = false`); `frame` is one `onaudioprocess` callback
(which sets it to `true` — it only fires while the processor is connected,
i.e. while recording); `stopRec` is `handleStopRecording` (tear down, then
send `commit_audio` iff `hasAudioData.current`). Note the code never resets
the flag at commit time. -/

inductive RecEv where
  | startRec
  | frame
  | stopRec
deriving DecidableEq, Repr

structure SessionRecState where
  isRecording : Bool
  hasAudioData : Bool
  sent : List ClientMsg
deriving DecidableEq, Repr

def initSessionRec : SessionRecState := ⟨false, false, []⟩

def sessionRecStep (s : SessionRecState) : RecEv → SessionRecState
  | RecEv.startRec => { s with isRecording := true, hasAudioData := false }
  | RecEv.frame =>
    if s.isRecording then { s with hasAudioData := true } else s
  | RecEv.stopRec =>
    if s.hasAudioData then
      { s with isRecording := false, sent := s.sent ++ [ClientMsg.commitMsg] }
    else
      { s with isRecording := false }

def runSessionRec (evs : List RecEv) : SessionRecState :=
  evs.foldl sessionRecStep initSessionRec

/-- The gating property exactly as the claim states it, as a decidable check
over a trace: every `commit_audio` the code emits must be preceded by at
least one captured frame since the previously emitted commit. The first two
accumulator components mirror the code's `isRecording` / `hasAudioData`
state; the third records whether a frame arrived since the last commit. -/
def commitGateSinceCommitOKAux : Bool → Bool → Bool → List RecEv → Bool
  | _, _, _, [] => true
  | _, _h, f, RecEv.startRec :: rest => commitGateSinceCommitOKAux true false f rest
  | r, h, f, RecEv.frame :: rest =>
    if r then commitGateSinceCommitOKAux r true true rest
    else commitGateSinceCommitOKAux r h f rest
  | _r, h, f, RecEv.stopRec :: rest =>
    if h then f && commitGateSinceCommitOKAux false h false rest
    else commitGateSinceCommitOKAux false h f rest

def commitGateSinceCommitOK (evs : List RecEv) : Bool :=
  commitGateSinceCommitOKAux false false false evs

/-- Counterexample to C8 as stated: after `start, frame, stop` the first
commit is sent; a second `stopRec` with no intervening frame (for example a
duplicated mouse-up/touch-end) sends a second `commit_audio` even though no
frame arrived since the previous commit, because the code resets
`hasAudioDataRef` only in `startRecording`, never on commit. The trace
contains one frame but two sent commits. -/
theorem commit_gating_counterexample :
    (runSessionRec [RecEv.startRec, RecEv.frame, RecEv.stopRec, RecEv.stopRec]).sent
      = [ClientMsg.commitMsg, ClientMsg.commitMsg] ∧
    [RecEv.startRec, RecEv.frame, RecEv.stopRec, RecEv.stopRec].count RecEv.frame = 1 ∧
    commitGateSinceCommitOK
      [RecEv.startRec, RecEv.frame, RecEv.stopRec, RecEv.stopRec] = false := by
  decide

/-- Did a frame event occur before the first stop of this trace tail?
Spec-side recomputation used to characterise the dirty flag. -/
def framesBeforeStop : List RecEv → Bool
  | [] => false
  | RecEv.frame :: _ => true
  | RecEv.stopRec :: _ => false
  | RecEv.startRec :: rest => framesBeforeStop rest

theorem hasAudio_persists (post : List RecEv) :
    ∀ s : SessionRecState, s.hasAudioData = true → RecEv.startRec ∉ post →
    (post.foldl sessionRecStep s).hasAudioData = true := by
  induction post with
  | nil => exact fun s h _ => h
  | cons ev rest ih =>
    intro s h hp
    have hp' : RecEv.startRec ∉ rest := fun hm => hp (by simp [hm])
    cases ev with
    | startRec => exact absurd (by simp) hp
    | frame =>
      rw [List.foldl_cons]
      by_cases hr : s.isRecording
      · simp only [sessionRecStep, hr, if_true]
        exact ih _ rfl hp'
      · simp only [sessionRecStep, if_neg hr]
        exact ih _ h hp'
    | stopRec =>
      rw [List.foldl_cons]
      simp only [sessionRecStep, h, if_true]
      exact ih _ rfl hp'

theorem hasAudio_stays_false (post : List RecEv) :
    ∀ s : SessionRecState, s.hasAudioData = false → s.isRecording = false →
    RecEv.startRec ∉ post →
    (post.foldl sessionRecStep s).hasAudioData = false := by
  induction post with
  | nil => exact fun s h _ _ => h
  | cons ev rest ih =>
    intro s h hr hp
    have hp' : RecEv.startRec ∉ rest := fun hm => hp (by simp [hm])
    cases ev with
    | startRec => exact absurd (by simp) hp
    | frame =>
      rw [List.foldl_cons]
      simp only [sessionRecStep, hr, Bool.false_eq_true, if_false]
      exact ih _ h hr hp'
    | stopRec =>
      rw [List.foldl_cons]
      simp only [sessionRecStep, h, Bool.false_eq_true, if_false]
      exact ih _ rfl rfl hp'

theorem hasAudio_eq_framesBeforeStop (post : List RecEv)
    (s : SessionRecState) (hr : s.isRecording = true) (h : s.hasAudioData = false)
    (hp : RecEv.startRec ∉ post) :
    (post.foldl sessionRecStep s).hasAudioData = framesBeforeStop post := by
  cases post with
  | nil => exact h
  | cons ev rest =>
    have hp' : RecEv.startRec ∉ rest := fun hm => hp (by simp [hm])
    cases ev with
    | startRec => exact absurd (by simp) hp
    | frame =>
      rw [List.foldl_cons]
      simp only [sessionRecStep, hr, if_true, framesBeforeStop]
      exact hasAudio_persists rest _ rfl hp'
    | stopRec =>
      rw [List.foldl_cons]
      simp only [sessionRecStep, h, Bool.false_eq_true, if_false, framesBeforeStop]
      exact hasAudio_stays_false rest _ rfl rfl hp'

/-- C8 (amended): a `commit_audio` message is sent at stop-recording iff the
dirty flag is set, and the dirty flag is set iff at least one frame was
captured since the most recent `startRecording` — the flag is reset at
capture start, not at commit or agent switch. -/
theorem commit_gating_amended (pre post : List RecEv)
    (hp : RecEv.startRec ∉ post) :
    (runSessionRec (pre ++ RecEv.startRec :: post)).hasAudioData
      = framesBeforeStop post ∧
    ((sessionRecStep (runSessionRec (pre ++ RecEv.startRec :: post)) RecEv.stopRec).sent
        = (runSessionRec (pre ++ RecEv.startRec :: post)).sent ++ [ClientMsg.commitMsg]
      ↔ framesBeforeStop post = true) := by
  have hrun : runSessionRec (pre ++ RecEv.startRec :: post)
      = post.foldl sessionRecStep (sessionRecStep (runSessionRec pre) RecEv.startRec) := by
    rw [runSessionRec, List.foldl_append, List.foldl_cons]
    rfl
  have hmain : (runSessionRec (pre ++ RecEv.startRec :: post)).hasAudioData
      = framesBeforeStop post := by
    rw [hrun]
    exact hasAudio_eq_framesBeforeStop post _ rfl rfl hp
  refine ⟨hmain, ?_⟩
  cases hfb : framesBeforeStop post with
  | true =>
    rw [hfb] at hmain
    simp [sessionRecStep, hmain]
  | false =>
    rw [hfb] at hmain
    simp [sessionRecStep, hmain]

/-- Witness for C8's amended theorem: one captured frame after the start, so
the following stop commits. -/
theorem commit_gating_amended_witness :
    (runSessionRec ([] ++ RecEv.startRec :: [RecEv.frame])).hasAudioData
      = framesBeforeStop [RecEv.frame] ∧
    ((sessionRecStep (runSessionRec ([] ++ RecEv.startRec :: [RecEv.frame]))
          RecEv.stopRec).sent
        = (runSessionRec ([] ++ RecEv.startRec :: [RecEv.frame])).sent
            ++ [ClientMsg.commitMsg]
      ↔ framesBeforeStop [RecEv.frame] = true) :=
  commit_gating_amended [] [RecEv.frame] (by decide)

/-! ### Capture lifecycle (useAudioRecorder.js `startRecording` /
`stopRecording`)

Device streams are tracked by identifier: `openStreams` are the microphone
subscriptions the browser currently holds open, `mediaStream` is
`mediaStreamRef.current`. `stopRecording` stops only the tracks of the stream
the ref currently points to. -/

structure RecorderState where
  mediaStream : Option ℕ
  openStreams : List ℕ
  nextStreamId : ℕ
  isRecording : Bool
deriving DecidableEq, Repr

inductive StartOutcome where
  | ok
  | deviceErr
  | stateErr
deriving DecidableEq, Repr

def initRecorder : RecorderState := ⟨none, [], 0, false⟩

/-- `startRecording` (lines 18-78): when the microphone is granted, open a
new stream, overwrite the refs and start emitting; when denied, the catch
shows an alert and leaves the state as it was. No check of any existing
recording state is performed anywhere in the function. -/
def startRecording (granted : Bool) (s : RecorderState) :
    RecorderState × StartOutcome :=
  if granted then
    ({ mediaStream := some s.nextStreamId
       openStreams := s.openStreams ++ [s.nextStreamId]
       nextStreamId := s.nextStreamId + 1
       isRecording := true }, StartOutcome.ok)
  else
    (s, StartOutcome.deviceErr)

/-- `stopRecording` (lines 80-105): disconnect and stop the tracks of the
stream currently referenced, clear the refs. -/
def stopRecording (s : RecorderState) : RecorderState :=
  { mediaStream := none
    isRecording := false
    nextStreamId := s.nextStreamId
    openStreams :=
      (match s.mediaStream with
        | none => s.openStreams
        | some sid => s.openStreams.filter (fun x => x != sid)) }

/-- Counterexample to C9 as stated: a second `start()` before `stop()` does
not fail with a StateError — it returns success and the browser now holds two
open microphone subscriptions. -/
theorem double_start_counterexample :
    (startRecording true (startRecording true initRecorder).1).2
      = StartOutcome.ok ∧
    (startRecording true (startRecording true initRecorder).1).2
      ≠ StartOutcome.stateErr ∧
    (startRecording true (startRecording true initRecorder).1).1.openStreams
      = [0, 1] := by
  decide

/-- C9 (amended): a second `start()` before `stop()` does not fail fast —
`startRecording` performs no state check, so with the microphone granted it
always succeeds and appends a fresh device subscription, overwriting the
stream ref; the subsequent `stop()` then releases only the newest
subscription, leaking the first. -/
theorem double_start_duplicates_subscription :
    (∀ s : RecorderState,
      (startRecording true s).2 = StartOutcome.ok ∧
      (startRecording true s).1.openStreams = s.openStreams ++ [s.nextStreamId] ∧
      (startRecording true s).1.mediaStream = some s.nextStreamId) ∧
    (stopRecording (startRecording true (startRecording true initRecorder).1).1).openStreams
      = [0] := by
  exact ⟨fun s => ⟨rfl, rfl, rfl⟩, by decide⟩

/-! ### Outbound audio routing (App.jsx `handleAudioData`) -/

/-- `handleAudioData` (App.jsx lines 39-43): forward the encoded chunk as one
`audio` message when the transport is connected, otherwise do nothing — the
chunk is dropped, nothing is buffered. -/
def handleAudioData (connected : Bool) (b64 : String) : List ClientMsg :=
  if connected then [ClientMsg.audioMsg b64] else []

inductive NetEv where
  | setConnected (c : Bool)
  | chunk (b64 : String)
deriving DecidableEq, Repr

structure NetState where
  connected : Bool
  sent : List ClientMsg
deriving DecidableEq, Repr

def initNet : NetState := ⟨false, []⟩

def netStep (s : NetState) : NetEv → NetState
  | NetEv.setConnected c => { s with connected := c }
  | NetEv.chunk b => { s with sent := s.sent ++ handleAudioData s.connected b }

def runNet (evs : List NetEv) : NetState := evs.foldl netStep initNet

/-- Spec-side recomputation of the expected outbound traffic: exactly one
audio message per chunk that arrives while connected, in arrival order;
chunks arriving while disconnected contribute nothing, then or later. -/
def connectedChunkMsgs : Bool → List NetEv → List ClientMsg
  | _, [] => []
  | _, NetEv.setConnected c :: rest => connectedChunkMsgs c rest
  | c, NetEv.chunk b :: rest =>
    (if c then [ClientMsg.audioMsg b] else []) ++ connectedChunkMsgs c rest

theorem foldl_net_sent (evs : List NetEv) :
    ∀ s : NetState, (evs.foldl netStep s).sent
      = s.sent ++ connectedChunkMsgs s.connected evs := by
  induction evs with
  | nil => intro s; simp [connectedChunkMsgs]
  | cons ev rest ih =>
    intro s
    cases ev with
    | setConnected c =>
      rw [List.foldl_cons, ih]
      simp [netStep, connectedChunkMsgs]
    | chunk b =>
      rw [List.foldl_cons, ih]
      simp [netStep, connectedChunkMsgs, handleAudioData, List.append_assoc]

/-- C10: a chunk emitted while disconnected produces no outbound message and
is never delivered later; a chunk emitted while connected is forwarded as
exactly one `audio` message carrying its base64 payload — over any event
trace, the messages sent are exactly one per connected chunk, in order. -/
theorem audio_chunks_forwarded_iff_connected (evs : List NetEv) (b : String) :
    handleAudioData false b = [] ∧
    handleAudioData true b = [ClientMsg.audioMsg b] ∧
    (runNet evs).sent = connectedChunkMsgs false evs := by
  refine ⟨rfl, rfl, ?_⟩
  rw [runNet, foldl_net_sent]
  rfl

/-! ### Base64 transport (useAudioRecorder.js `arrayBufferToBase64`,
useAudioPlayer.js `atob` decode)

Bytes are `Fin 256`. A JS "binary string" (each char code < 256) is modelled
as a byte list, so building it from `String.fromCharCode` chunks is list
concatenation; `btoa`/`atob` are the standard base64 of such a string. -/

abbrev Byte := Fin 256

/-- The base64 alphabet used by `btoa`. -/
def b64Chars : List Char :=
  "ABCDEFGHIJKLMNOPQRSTUVWXYZabcdefghijklmnopqrstuvwxyz0123456789+/".toList

def b64Tbl (k : ℕ) : Char := b64Chars.getD k 'A'

def b64Dec (c : Char) : Option ℕ := b64Chars.findIdx? (fun d => d == c)

/-- `btoa`: every 3 input bytes become 4 alphabet characters; a 1- or 2-byte
tail is padded with '='. -/
def btoaBytes : List Byte → List Char
  | [] => []
  | [b0] => [b64Tbl (b0.val / 4), b64Tbl (b0.val % 4 * 16), '=', '=']
  | [b0, b1] => [b64Tbl (b0.val / 4), b64Tbl (b0.val % 4 * 16 + b1.val / 16),
      b64Tbl (b1.val % 16 * 4), '=']
  | b0 :: b1 :: b2 :: rest =>
    b64Tbl (b0.val / 4) :: b64Tbl (b0.val % 4 * 16 + b1.val / 16) ::
    b64Tbl (b1.val % 16 * 4 + b2.val / 64) :: b64Tbl (b2.val % 64) :: btoaBytes rest

def mkByte (n : ℕ) : Byte := ⟨n % 256, Nat.mod_lt n (by norm_num)⟩

/-- `atob`: decode 4 characters to 3 bytes; '=' padding is only legal at the
end; malformed input (bad length or non-alphabet character) fails. -/
def atobChars : List Char → Option (List Byte)
  | [] => some []
  | c0 :: c1 :: c2 :: c3 :: rest =>
    if c3 = '=' then
      if rest.isEmpty then
        if c2 = '=' then
          match b64Dec c0, b64Dec c1 with
          | some s0, some s1 => some [mkByte (s0 * 4 + s1 / 16)]
          | _, _ => none
        else
          match b64Dec c0, b64Dec c1, b64Dec c2 with
          | some s0, some s1, some s2 =>
            some [mkByte (s0 * 4 + s1 / 16), mkByte (s1 % 16 * 16 + s2 / 4)]
          | _, _, _ => none
      else none
    else
      match b64Dec c0, b64Dec c1, b64Dec c2, b64Dec c3 with
      | some s0, some s1, some s2, some s3 =>
        (atobChars rest).map (fun bs =>
          mkByte (s0 * 4 + s1 / 16) :: mkByte (s1 % 16 * 16 + s2 / 4) ::
          mkByte (s2 % 4 * 64 + s3) :: bs)
      | _, _, _, _ => none
  | _ => none

/-- The 8192-byte chunking loop of `arrayBufferToBase64` (lines 149-154):
the pieces of the binary string, in order. -/
def chunksOf8192 : List Byte → List (List Byte)
  | [] => []
  | b :: rest => ((b :: rest).take 8192) :: chunksOf8192 ((b :: rest).drop 8192)
termination_by l => l.length
decreasing_by simp [List.length_drop]; omega

/-- `arrayBufferToBase64`: build the binary string chunk by chunk
(concatenation), then `btoa` the result. -/
def arrayBufferToBase64 (buffer : List Byte) : List Char :=
  btoaBytes (chunksOf8192 buffer).flatten

theorem chunksOf8192_flatten (l : List Byte) : (chunksOf8192 l).flatten = l := by
  suffices h : ∀ n (l : List Byte), l.length = n → (chunksOf8192 l).flatten = l from
    h l.length l rfl
  intro n
  induction n using Nat.strong_induction_on with
  | _ n ih =>
    intro l hn
    cases l with
    | nil => simp [chunksOf8192]
    | cons b rest =>
      rw [chunksOf8192, List.flatten_cons,
        ih (((b :: rest).drop 8192).length)
          (by subst hn; simp only [List.length_drop, List.length_cons]; omega)
          _ rfl,
        List.take_append_drop]

theorem b64Dec_b64Tbl_fin : ∀ t : Fin 64, b64Dec (b64Tbl t.val) = some t.val := by
  decide

theorem b64Dec_b64Tbl (s : ℕ) (h : s < 64) : b64Dec (b64Tbl s) = some s :=
  b64Dec_b64Tbl_fin ⟨s, h⟩

theorem b64Tbl_ne_pad_fin : ∀ t : Fin 64, b64Tbl t.val ≠ '=' := by
  decide

theorem b64Tbl_ne_pad (s : ℕ) (h : s < 64) : b64Tbl s ≠ '=' :=
  b64Tbl_ne_pad_fin ⟨s, h⟩

theorem atob_btoaBytes : ∀ l : List Byte, atobChars (btoaBytes l) = some l
  | [] => rfl
  | [b0] => by
    have h0 := b0.isLt
    rw [btoaBytes, atobChars]
    rw [if_pos rfl]
    simp only [List.isEmpty_nil, if_true, if_pos rfl]
    rw [b64Dec_b64Tbl (b0.val / 4) (by omega),
      b64Dec_b64Tbl (b0.val % 4 * 16) (by omega)]
    have hb : mkByte (b0.val / 4 * 4 + b0.val % 4) = b0 := by
      apply Fin.ext
      show (b0.val / 4 * 4 + b0.val % 4) % 256 = b0.val
      omega
    simp [hb]
  | [b0, b1] => by
    have h0 := b0.isLt
    have h1 := b1.isLt
    rw [btoaBytes, atobChars]
    rw [if_pos rfl]
    simp only [List.isEmpty_nil, if_true]
    rw [if_neg (b64Tbl_ne_pad (b1.val % 16 * 4) (by omega))]
    rw [b64Dec_b64Tbl (b0.val / 4) (by omega),
      b64Dec_b64Tbl (b0.val % 4 * 16 + b1.val / 16) (by omega),
      b64Dec_b64Tbl (b1.val % 16 * 4) (by omega)]
    have hx : mkByte (b0.val / 4 * 4 + (b0.val % 4 * 16 + b1.val / 16) / 16) = b0 := by
      apply Fin.ext
      show (b0.val / 4 * 4 + (b0.val % 4 * 16 + b1.val / 16) / 16) % 256 = b0.val
      omega
    have hy : mkByte ((b0.val % 4 * 16 + b1.val / 16) % 16 * 16
        + b1.val % 16) = b1 := by
      apply Fin.ext
      show ((b0.val % 4 * 16 + b1.val / 16) % 16 * 16 + b1.val % 16) % 256
        = b1.val
      omega
    simp [hx, hy]
  | b0 :: b1 :: b2 :: rest => by
    have h0 := b0.isLt
    have h1 := b1.isLt
    have h2 := b2.isLt
    have ih := atob_btoaBytes rest
    rw [btoaBytes, atobChars]
    rw [if_neg (b64Tbl_ne_pad (b2.val % 64) (by omega))]
    rw [b64Dec_b64Tbl (b0.val / 4) (by omega),
      b64Dec_b64Tbl (b0.val % 4 * 16 + b1.val / 16) (by omega),
      b64Dec_b64Tbl (b1.val % 16 * 4 + b2.val / 64) (by omega),
      b64Dec_b64Tbl (b2.val % 64) (by omega)]
    rw [ih]
    have hx : mkByte (b0.val / 4 * 4 + (b0.val % 4 * 16 + b1.val / 16) / 16) = b0 := by
      apply Fin.ext
      show (b0.val / 4 * 4 + (b0.val % 4 * 16 + b1.val / 16) / 16) % 256 = b0.val
      omega
    have hy : mkByte ((b0.val % 4 * 16 + b1.val / 16) % 16 * 16
        + (b1.val % 16 * 4 + b2.val / 64) / 4) = b1 := by
      apply Fin.ext
      show ((b0.val % 4 * 16 + b1.val / 16) % 16 * 16
        + (b1.val % 16 * 4 + b2.val / 64) / 4) % 256 = b1.val
      omega
    have hz : mkByte ((b1.val % 16 * 4 + b2.val / 64) % 4 * 64 + b2.val % 64) = b2 := by
      apply Fin.ext
      show ((b1.val % 16 * 4 + b2.val / 64) % 4 * 64 + b2.val % 64) % 256 = b2.val
      omega
    simp [hx, hy, hz]

/-- C5: for every byte sequence — including ones spanning several internal
8192-byte chunk boundaries — the chunked text encoding is identical to
base64-encoding the whole buffer at once, and decoding it gives back exactly
the original bytes. -/
theorem base64_roundtrip_chunked (x : List Byte) :
    atobChars (arrayBufferToBase64 x) = some x ∧
    arrayBufferToBase64 x = btoaBytes x := by
  have h : arrayBufferToBase64 x = btoaBytes x := by
    rw [arrayBufferToBase64, chunksOf8192_flatten]
  exact ⟨h ▸ atob_btoaBytes x, h⟩

end VoiceAgent
